import Mathlib

/-!
Verification development for `collect_idls_into_json.py` (blink_idl_diff).

The script collects Blink IDL interface definitions into a name-keyed
registry of canonical records, merges partial-interface fragments and
`implements` (mixin) relations into that registry, and dumps it as JSON
with sorted keys and 4-space indentation.

The embedding below translates the script's data flow:
  * raw parser nodes are modelled through the accessor results the script
    reads (`GetName`, `GetProperty`, `GetListOf`, ...);
  * Python dicts are insertion-ordered association lists with unique keys
    (`dictInsert` overwrites in place, appends fresh keys at the end);
  * in-place mutation of records becomes functional record update;
  * code that can raise an uncaught `KeyError` returns `Option`.
-/

namespace BlinkIdl

/-! ## Canonical record shapes (the dicts built by `*_node_to_dict`) -/

/-- The dict built by `extattr_node_to_dict`: `{'Name': ...}`. -/
structure ExtAttrRec where
  Name : String
deriving DecidableEq

/-- The dict built by `const_node_to_dict`:
`{'Name', 'Type', 'Value', 'ExtAttributes'}`.  `Type` is a reserved word in
Lean, so the field is called `TypeName`. -/
structure ConstRec where
  Name : String
  TypeName : String
  Value : String
  ExtAttributes : List ExtAttrRec
deriving DecidableEq

/-- The dict built by `argument_node_to_dict`: `{'Name', 'Type'}`. -/
structure ArgRec where
  Name : String
  TypeName : String
deriving DecidableEq

/-- The dict built by `attribute_node_to_dict`:
`{'Name', 'Type', 'ExtAttributes', 'Readonly', 'Static'}`. -/
structure AttrRec where
  Name : String
  TypeName : String
  ExtAttributes : List ExtAttrRec
  Readonly : Bool
  Static : Bool
deriving DecidableEq

/-- The dict built by `operation_node_to_dict`:
`{'Name', 'Arguments', 'Type', 'ExtAttributes', 'Static'}`. -/
structure OpRec where
  Name : String
  Arguments : List ArgRec
  TypeName : String
  ExtAttributes : List ExtAttrRec
  Static : Bool
deriving DecidableEq

/-- The dict built by `inherit_node_to_dict`: `{'Parent': ...}`. -/
structure InheritRec where
  Parent : String
deriving DecidableEq

/-- The dict built by `interface_node_to_dict`, plus the
`Partial_FilePaths` key that `merge_partial_dicts` adds via `setdefault`
(`none` = the key is absent, as in a freshly extracted record). -/
structure IfaceRec where
  Name : String
  FilePath : String
  Consts : List ConstRec
  Attributes : List AttrRec
  Operations : List OpRec
  ExtAttributes : List ExtAttrRec
  Inherit : List InheritRec
  Partial_FilePaths : Option (List String)
deriving DecidableEq

/-! ## Raw parser nodes

The script consumes the external parser's nodes only through accessors;
each node kind is modelled by the values those accessors return. -/

/-- An `ExtAttribute` child node (only `GetName` is read). -/
structure ExtAttrNode where
  name : String
deriving DecidableEq

/-- A `Const` child node: `GetName`, `GetChildren()[0].GetName()` (type),
`GetChildren()[1].GetName()` (value), and its `ExtAttributes` block. -/
structure ConstNode where
  name : String
  typeName : String
  value : String
  extAttrs : List ExtAttrNode
deriving DecidableEq

/-- An `Argument` node: `GetName` and the first child of its `Type` child. -/
structure ArgumentNode where
  name : String
  typeName : String
deriving DecidableEq

/-- An `Attribute` node: name, declared type, extended attributes and the
`READONLY` / `STATIC` boolean properties. -/
structure AttributeNode where
  name : String
  typeName : String
  extAttrs : List ExtAttrNode
  readonly : Bool
  static : Bool
deriving DecidableEq

/-- An `Operation` node: declared name, the `GETTER`/`SETTER`/`DELETER`
special-accessor flags, its `Arguments` list, declared type, extended
attributes and the `STATIC` property. -/
structure OperationNode where
  name : String
  getter : Bool
  setter : Bool
  deleter : Bool
  args : List ArgumentNode
  typeName : String
  extAttrs : List ExtAttrNode
  static : Bool
deriving DecidableEq

/-- An `Inherit` child node (only `GetName` is read). -/
structure InheritNode where
  name : String
deriving DecidableEq

/-- An `Interface` definition node: `GetName`, the `FILENAME` property
(absolute defining-document path), the `Partial` property
(`partialFlag`), and its member child lists. -/
structure InterfaceNode where
  name : String
  filename : String
  partialFlag : Bool
  consts : List ConstNode
  attributes : List AttributeNode
  operations : List OperationNode
  extAttrs : List ExtAttrNode
  inherits : List InheritNode
deriving DecidableEq

/-- An `Implements` definition node: `GetName` is the implementing
(target) interface, the `REFERENCE` property names the referenced
interface (`none` = the property is absent / `None`). -/
structure ImplementNode where
  name : String
  reference : Option String
deriving DecidableEq

/-- A top-level definition yielded by `get_definitions`: the script only
distinguishes `Interface` nodes and `Implements` nodes (everything else
is filtered out by all three passes and never read). -/
inductive Definition where
  | iface (n : InterfaceNode)
  | impl (n : ImplementNode)
deriving DecidableEq

/-! ## Record Extractor -/

/-- `_STRIP_FILEPATH` (line 20 of the script). -/
def _STRIP_FILEPATH : String := "../chromium/src/third_party/WebKit"

/-- Python's `str.strip(chars)`: removes leading and trailing characters
that belong to the character SET of `chars` (it is not a substring
removal). -/
def pyStrip (chars s : String) : String :=
  let inSet : Char → Bool := fun c => chars.toList.contains c
  String.mk (((s.toList.dropWhile inSet).reverse.dropWhile inSet).reverse)

/-- `get_filepath`: `os.path.relpath(filename).strip(_STRIP_FILEPATH)`.
`os.path.relpath` depends on the process working directory, so it is
passed in as a function parameter. -/
def get_filepath (relpath : String → String) (node : InterfaceNode) : String :=
  pyStrip _STRIP_FILEPATH (relpath node.filename)

/-- `get_operation_name`: sentinel names for special accessors, with the
`GETTER` test first, then `SETTER`, then `DELETER`, else the declared
name. -/
def get_operation_name (op : OperationNode) : String :=
  if op.getter then "__getter__"
  else if op.setter then "__setter__"
  else if op.deleter then "__deleter__"
  else op.name

/-- `extattr_node_to_dict`. -/
def extattr_node_to_dict (e : ExtAttrNode) : ExtAttrRec :=
  { Name := e.name }

/-- `const_node_to_dict`. -/
def const_node_to_dict (c : ConstNode) : ConstRec :=
  { Name := c.name
    TypeName := c.typeName
    Value := c.value
    ExtAttributes := c.extAttrs.map extattr_node_to_dict }

/-- `attribute_node_to_dict`. -/
def attribute_node_to_dict (a : AttributeNode) : AttrRec :=
  { Name := a.name
    TypeName := a.typeName
    ExtAttributes := a.extAttrs.map extattr_node_to_dict
    Readonly := a.readonly
    Static := a.static }

/-- `argument_node_to_dict`. -/
def argument_node_to_dict (a : ArgumentNode) : ArgRec :=
  { Name := a.name, TypeName := a.typeName }

/-- `operation_node_to_dict`. -/
def operation_node_to_dict (o : OperationNode) : OpRec :=
  { Name := get_operation_name o
    Arguments := o.args.map argument_node_to_dict
    TypeName := o.typeName
    ExtAttributes := o.extAttrs.map extattr_node_to_dict
    Static := o.static }

/-- `inherit_node_to_dict`. -/
def inherit_node_to_dict (i : InheritNode) : InheritRec :=
  { Parent := i.name }

/-- `interface_node_to_dict`.  The Python comprehensions guard each
element with `if attribute_node_to_dict(attr)` (resp. operations): a
non-empty dict literal is always truthy in Python, so the guards filter
nothing and the comprehensions are plain maps.  A freshly extracted
record has no `Partial_FilePaths` key. -/
def interface_node_to_dict (relpath : String → String) (n : InterfaceNode) : IfaceRec :=
  { Name := n.name
    FilePath := get_filepath relpath n
    Consts := n.consts.map const_node_to_dict
    Attributes := n.attributes.map attribute_node_to_dict
    Operations := n.operations.map operation_node_to_dict
    ExtAttributes := n.extAttrs.map extattr_node_to_dict
    Inherit := n.inherits.map inherit_node_to_dict
    Partial_FilePaths := none }

/-! ## Python dicts as insertion-ordered association lists

A Python dict is an insertion-ordered mapping with unique keys: assigning
to an existing key replaces the value in place (the key keeps its
position), assigning a fresh key appends it at the end.  Lookup is
`List.lookup` (first match; with unique keys, the match). -/

/-- The registry: interface name → canonical record. -/
abbrev Registry := List (String × IfaceRec)

/-- Python dict assignment `d[k] = v`. -/
def dictInsert (d : List (String × IfaceRec)) (k : String) (v : IfaceRec) :
    List (String × IfaceRec) :=
  if d.any (fun p => p.1 == k) then
    d.map (fun p => if p.1 == k then (k, v) else p)
  else
    d ++ [(k, v)]

/-! ## Registry Builder: the three passes of `main` -/

/-- The guard of the second pass of `main`
(`filter_non_partial`): an `Interface` node without the `Partial`
property. -/
def isNonPartialInterface (d : Definition) : Bool :=
  match d with
  | .iface n => !n.partialFlag
  | .impl _ => false

/-- The guard of the third pass of `main` (`filter_partial`): an
`Interface` node carrying the `Partial` property. -/
def isPartialInterface (d : Definition) : Bool :=
  match d with
  | .iface n => n.partialFlag
  | .impl _ => false

/-- One element of a dict comprehension
`{definition.GetName(): interface_node_to_dict(definition) for ... if keep ...}`:
a kept `Interface` node is assigned under its name (overwriting any
earlier entry with that name), everything else contributes nothing. -/
def buildStep (keep : Definition → Bool) (relpath : String → String)
    (d : Registry) (dfn : Definition) : Registry :=
  match dfn with
  | .iface n =>
    if keep (.iface n) then dictInsert d n.name (interface_node_to_dict relpath n) else d
  | .impl _ => d

/-- The dict comprehension over the definition stream: later entries with
the same name overwrite earlier ones (last wins). -/
def buildIfaceDict (keep : Definition → Bool) (relpath : String → String)
    (defs : List Definition) : Registry :=
  defs.foldl (buildStep keep relpath) []

/-- `interfaces_dict` of `main`. -/
def interfaces_dict_of (relpath : String → String) (defs : List Definition) : Registry :=
  buildIfaceDict isNonPartialInterface relpath defs

/-- `partials_dict` of `main`. -/
def partials_dict_of (relpath : String → String) (defs : List Definition) : Registry :=
  buildIfaceDict isPartialInterface relpath defs

/-- `implement_nodes` of `main` (first pass, `is_implements`). -/
def implement_nodes_of (defs : List Definition) : List ImplementNode :=
  defs.filterMap
    (fun d => match d with
      | .impl n => some n
      | .iface _ => none)

/-! ## Partial Merger -/

/-- The per-fragment body of `merge_partial_dicts`: each of the
`_MEMBERS` lists (`Attributes`, `Operations`, `Consts`) of the base is
extended with the fragment's, and the fragment's `FilePath` is appended
to the base's `Partial_FilePaths` (`setdefault('Partial_FilePaths', [])`
creates the key when absent). -/
def mergePartialInto (base frag : IfaceRec) : IfaceRec :=
  { base with
    Attributes := base.Attributes ++ frag.Attributes
    Operations := base.Operations ++ frag.Operations
    Consts := base.Consts ++ frag.Consts
    Partial_FilePaths := some (base.Partial_FilePaths.getD [] ++ [frag.FilePath]) }

/-- One iteration of the `merge_partial_dicts` loop: for a
(name, fragment) entry of the partials dict, look the name up in the
interfaces dict; a missing base means the fragment is skipped
(`continue`), otherwise the base record is updated in place. -/
def partialStep (acc : Registry) (p : String × IfaceRec) : Registry :=
  match List.lookup p.1 acc with
  | none => acc
  | some base => dictInsert acc p.1 (mergePartialInto base p.2)

/-- `merge_partial_dicts` as the fold of `partialStep` over the partials
dict. -/
def merge_partial_dicts (interfaces : Registry) (partials : Registry) : Registry :=
  partials.foldl partialStep interfaces

/-! ## Mixin Merger -/

/-- The member transfer of `merge_implement_node`: the target's
`_MEMBERS` lists are extended with the referenced record's. -/
def mergeImplementInto (target ref : IfaceRec) : IfaceRec :=
  { target with
    Attributes := target.Attributes ++ ref.Attributes
    Operations := target.Operations ++ ref.Operations
    Consts := target.Consts ++ ref.Consts }

/-- One iteration of the `merge_implement_node` loop.  A node without the
`REFERENCE` property is skipped (`continue`).  Otherwise
`interfaces_dict[implement]` and `interfaces_dict[reference]` are
indexed directly: a missing key raises an uncaught `KeyError`, modelled
as `none`. -/
def implementStep (d : Registry) (node : ImplementNode) : Option Registry :=
  match node.reference with
  | none => some d
  | some r =>
    match List.lookup node.name d, List.lookup r d with
    | some target, some refRec => some (dictInsert d node.name (mergeImplementInto target refRec))
    | _, _ => none

/-- `merge_implement_node`: the loop over the implements nodes, mutating
the registry sequentially; `none` = the loop raised `KeyError`. -/
def merge_implement_node (d : Registry) (nodes : List ImplementNode) : Option Registry :=
  nodes.foldlM implementStep d

/-- The registry `main` hands to `export_to_jsonfile`: the non-partial
dict, the partial merge applied, then the implements merge (both merges
mutate the same dict object, so the exported `dictionary` reflects
both). -/
def mainRegistry (relpath : String → String) (defs : List Definition) : Option Registry :=
  merge_implement_node
    (merge_partial_dicts (interfaces_dict_of relpath defs) (partials_dict_of relpath defs))
    (implement_nodes_of defs)

/-! ## Serializer: `export_to_jsonfile` = `json.dump(d, f, sort_keys=True, indent=4)`

The registry has a fixed shape (a dict of interface records whose fields
are strings, booleans and lists of fixed-shape member dicts), so the
serializer is embedded shape by shape.  `sort_keys=True` sorts every
dict's keys with Python's code-point string order; for the fixed-field
member dicts that order is hard-coded below (and proved sorted), for the
top-level registry it is an explicit sort.  `indent=4` produces the
line-broken form with 4-space indentation and `(',', ': ')` separators.
`ensure_ascii` escaping of non-ASCII code points is elided: IDL
identifiers, types and repository paths are ASCII. -/

/-- Lower-case hexadecimal digit. -/
def hexDigit (n : Nat) : Char :=
  if n < 10 then Char.ofNat (48 + n) else Char.ofNat (87 + n)

/-- JSON string escaping of one character (CPython `json` for ASCII
input): `\"`, `\\`, the short control escapes, `\u00XX` for the other
control characters. -/
def escChar (c : Char) : String :=
  if c = '"' then "\\\""
  else if c = '\\' then "\\\\"
  else if c = '\n' then "\\n"
  else if c = '\t' then "\\t"
  else if c = '\r' then "\\r"
  else if c.toNat = 8 then "\\b"
  else if c.toNat = 12 then "\\f"
  else if c.toNat < 32 then
    String.mk ['\\', 'u', '0', '0', hexDigit (c.toNat / 16), hexDigit (c.toNat % 16)]
  else String.singleton c

/-- A JSON string literal. -/
def jstr (s : String) : String :=
  "\"" ++ String.join (s.toList.map escChar) ++ "\""

/-- A JSON boolean. -/
def jbool (b : Bool) : String := if b then "true" else "false"

/-- `indent=4`: the indentation prefix of a line at nesting level `l`. -/
def indentStr (l : Nat) : String := String.mk (List.replicate (4 * l) ' ')

/-- A JSON object whose closing brace sits at nesting level `level`;
`fields` are the already-rendered `(key, value)` pairs in emission
order. -/
def renderObj (level : Nat) (fields : List (String × String)) : String :=
  if fields.isEmpty then "\x7b\x7d"
  else
    "\x7b\n"
      ++ String.intercalate ",\n"
          (fields.map (fun kv => indentStr (level + 1) ++ jstr kv.1 ++ ": " ++ kv.2))
      ++ "\n" ++ indentStr level ++ "\x7d"

/-- A JSON array whose closing bracket sits at nesting level `level`. -/
def renderArr (level : Nat) (items : List String) : String :=
  if items.isEmpty then "[]"
  else
    "[\n"
      ++ String.intercalate ",\n" (items.map (fun s => indentStr (level + 1) ++ s))
      ++ "\n" ++ indentStr level ++ "]"

/-- An extended-attribute dict, keys in `sort_keys` order. -/
def extAttrFields (e : ExtAttrRec) : List (String × String) :=
  [("Name", jstr e.Name)]

/-- Serialization of an extended-attribute dict. -/
def dumpExtAttr (level : Nat) (e : ExtAttrRec) : String :=
  renderObj level (extAttrFields e)

/-- A constant dict, keys in `sort_keys` order. -/
def constFields (level : Nat) (c : ConstRec) : List (String × String) :=
  [("ExtAttributes", renderArr (level + 1) (c.ExtAttributes.map (dumpExtAttr (level + 2)))),
   ("Name", jstr c.Name),
   ("Type", jstr c.TypeName),
   ("Value", jstr c.Value)]

/-- Serialization of a constant dict. -/
def dumpConst (level : Nat) (c : ConstRec) : String :=
  renderObj level (constFields level c)

/-- An argument dict, keys in `sort_keys` order. -/
def argFields (a : ArgRec) : List (String × String) :=
  [("Name", jstr a.Name), ("Type", jstr a.TypeName)]

/-- Serialization of an argument dict. -/
def dumpArg (level : Nat) (a : ArgRec) : String :=
  renderObj level (argFields a)

/-- An attribute dict, keys in `sort_keys` order. -/
def attrFields (level : Nat) (a : AttrRec) : List (String × String) :=
  [("ExtAttributes", renderArr (level + 1) (a.ExtAttributes.map (dumpExtAttr (level + 2)))),
   ("Name", jstr a.Name),
   ("Readonly", jbool a.Readonly),
   ("Static", jbool a.Static),
   ("Type", jstr a.TypeName)]

/-- Serialization of an attribute dict. -/
def dumpAttr (level : Nat) (a : AttrRec) : String :=
  renderObj level (attrFields level a)

/-- An operation dict, keys in `sort_keys` order. -/
def opFields (level : Nat) (o : OpRec) : List (String × String) :=
  [("Arguments", renderArr (level + 1) (o.Arguments.map (dumpArg (level + 2)))),
   ("ExtAttributes", renderArr (level + 1) (o.ExtAttributes.map (dumpExtAttr (level + 2)))),
   ("Name", jstr o.Name),
   ("Static", jbool o.Static),
   ("Type", jstr o.TypeName)]

/-- Serialization of an operation dict. -/
def dumpOp (level : Nat) (o : OpRec) : String :=
  renderObj level (opFields level o)

/-- An inherit dict, keys in `sort_keys` order. -/
def inheritFields (i : InheritRec) : List (String × String) :=
  [("Parent", jstr i.Parent)]

/-- Serialization of an inherit dict. -/
def dumpInherit (level : Nat) (i : InheritRec) : String :=
  renderObj level (inheritFields i)

/-- An interface record dict, keys in `sort_keys` order
(`Partial_FilePaths` is emitted only when the key is present). -/
def ifaceFields (level : Nat) (r : IfaceRec) : List (String × String) :=
  [("Attributes", renderArr (level + 1) (r.Attributes.map (dumpAttr (level + 2)))),
   ("Consts", renderArr (level + 1) (r.Consts.map (dumpConst (level + 2)))),
   ("ExtAttributes", renderArr (level + 1) (r.ExtAttributes.map (dumpExtAttr (level + 2)))),
   ("FilePath", jstr r.FilePath),
   ("Inherit", renderArr (level + 1) (r.Inherit.map (dumpInherit (level + 2)))),
   ("Name", jstr r.Name),
   ("Operations", renderArr (level + 1) (r.Operations.map (dumpOp (level + 2))))]
  ++ (match r.Partial_FilePaths with
      | none => []
      | some ps => [("Partial_FilePaths", renderArr (level + 1) (ps.map jstr))])

/-- Serialization of an interface record dict. -/
def dumpIface (level : Nat) (r : IfaceRec) : String :=
  renderObj level (ifaceFields level r)

/-- Python's `<=` on `str`: code-point lexicographic and case-sensitive,
the order `sort_keys=True` sorts with. -/
def strLe (a b : String) : Prop := a.toList ≤ b.toList

instance : DecidableRel strLe :=
  fun a b => inferInstanceAs (Decidable (a.toList ≤ b.toList))

/-- Registry entries compared by key. -/
def keyLe (p q : String × IfaceRec) : Prop := strLe p.1 q.1

instance : DecidableRel keyLe :=
  fun p q => inferInstanceAs (Decidable (strLe p.1 q.1))

instance : IsTotal (String × IfaceRec) keyLe :=
  ⟨fun p q => le_total p.1.toList q.1.toList⟩

instance : IsTrans (String × IfaceRec) keyLe :=
  ⟨fun _ _ _ h₁ h₂ => le_trans h₁ h₂⟩

/-- `sorted(dictionary.items())`: the registry entries sorted by key. -/
def sortByKey (d : Registry) : Registry := List.insertionSort keyLe d

/-- `export_to_jsonfile` (the text written to the output file). -/
def export_to_jsonfile (d : Registry) : String :=
  renderObj 0 ((sortByKey d).map (fun kv => (kv.1, dumpIface 1 kv.2)))

/-! ## Dictionary lemmas -/

lemma lookup_cons_if (a : String) (b : IfaceRec) (d : List (String × IfaceRec)) (k : String) :
    List.lookup k ((a, b) :: d) = if k = a then some b else List.lookup k d := by
  rw [List.lookup_cons]
  by_cases h : k = a
  · rw [beq_iff_eq.mpr h, if_pos h]
  · rw [beq_eq_false_iff_ne.mpr h, if_neg h]

lemma any_key_eq_false_forall (d : List (String × IfaceRec)) (k : String)
    (hb : d.any (fun p => p.1 == k) = false) : ∀ p ∈ d, p.1 ≠ k := by
  intro p hp hk
  have : d.any (fun p => p.1 == k) = true :=
    List.any_eq_true.mpr ⟨p, hp, beq_iff_eq.mpr hk⟩
  rw [this] at hb
  cases hb

lemma lookup_eq_none_of_any_false (d : List (String × IfaceRec)) (k : String)
    (hb : d.any (fun p => p.1 == k) = false) : List.lookup k d = none := by
  induction d with
  | nil => rfl
  | cons p d ih =>
    obtain ⟨a, b⟩ := p
    rw [List.any_cons] at hb
    have ha : a ≠ k := by
      intro h
      rw [beq_iff_eq.mpr h] at hb
      simp at hb
    have hd : d.any (fun p => p.1 == k) = false := by
      rcases Bool.or_eq_false_iff.mp hb with ⟨_, h2⟩
      exact h2
    rw [lookup_cons_if, if_neg (fun h => ha h.symm), ih hd]

lemma lookup_map_upd (k : String) (v : IfaceRec) (d : List (String × IfaceRec)) (k' : String) :
    List.lookup k' (d.map (fun p => if p.1 == k then (k, v) else p))
      = if k' = k then (if d.any (fun p => p.1 == k) then some v else none)
        else List.lookup k' d := by
  induction d with
  | nil => simp
  | cons p d ih =>
    obtain ⟨a, b⟩ := p
    rw [List.map_cons, List.any_cons]
    by_cases hp : a = k
    · rw [if_pos (show ((a, b).1 == k) = true from beq_iff_eq.mpr hp)]
      rw [lookup_cons_if, ih]
      by_cases hk : k' = k
      · rw [if_pos hk, if_pos hk, if_pos (by rw [beq_iff_eq.mpr hp, Bool.true_or])]
      · rw [if_neg hk, if_neg hk, if_neg hk, lookup_cons_if,
          if_neg (fun h => hk (h.trans hp))]
    · have hpb : ((a, b).1 == k) = false := beq_eq_false_iff_ne.mpr hp
      rw [if_neg (by simp [hpb]), lookup_cons_if, ih, lookup_cons_if]
      by_cases hk : k' = a
      · have hkk : k' ≠ k := fun h => hp (hk ▸ h)
        rw [if_pos hk, if_neg hkk, if_pos hk]
      · rw [if_neg hk, if_neg hk]
        by_cases h2 : k' = k
        · rw [if_pos h2, if_pos h2, hpb, Bool.false_or]
        · rw [if_neg h2, if_neg h2]

lemma lookup_dictInsert (d : List (String × IfaceRec)) (k : String) (v : IfaceRec) (k' : String) :
    List.lookup k' (dictInsert d k v) = if k' = k then some v else List.lookup k' d := by
  unfold dictInsert
  by_cases h : d.any (fun p => p.1 == k)
  · simp only [h, if_true]
    rw [lookup_map_upd]
    by_cases hk : k' = k
    · rw [if_pos hk, if_pos hk, if_pos h]
    · rw [if_neg hk, if_neg hk]
  · have hb : d.any (fun p => p.1 == k) = false := Bool.eq_false_iff.mpr h
    simp only [hb, Bool.false_eq_true, if_false]
    rw [List.lookup_append]
    by_cases hk : k' = k
    · have hnone : List.lookup k' d = none := hk ▸ lookup_eq_none_of_any_false d k hb
      rw [hnone, if_pos hk, lookup_cons_if, if_pos hk]
      rfl
    · rw [if_neg hk, lookup_cons_if, if_neg hk]
      show (List.lookup k' d).or (List.lookup k' []) = List.lookup k' d
      rw [show List.lookup k' ([] : List (String × IfaceRec)) = none from rfl, Option.or_none]

lemma lookup_dictInsert_self (d : List (String × IfaceRec)) (k : String) (v : IfaceRec) :
    List.lookup k (dictInsert d k v) = some v := by
  simp [lookup_dictInsert]

lemma lookup_dictInsert_ne (d : List (String × IfaceRec)) (k : String) (v : IfaceRec)
    (k' : String) (h : k' ≠ k) :
    List.lookup k' (dictInsert d k v) = List.lookup k' d := by
  simp [lookup_dictInsert, h]

lemma lookup_some_any (d : List (String × IfaceRec)) (k : String) (v : IfaceRec)
    (h : List.lookup k d = some v) : d.any (fun p => p.1 == k) = true := by
  by_cases ha : d.any (fun p => p.1 == k)
  · exact ha
  · have hb : d.any (fun p => p.1 == k) = false := Bool.eq_false_iff.mpr ha
    rw [lookup_eq_none_of_any_false d k hb] at h
    cases h

lemma keys_dictInsert_of_mem (d : List (String × IfaceRec)) (k : String) (v : IfaceRec)
    (h : d.any (fun p => p.1 == k) = true) :
    (dictInsert d k v).map Prod.fst = d.map Prod.fst := by
  unfold dictInsert
  rw [h]
  simp only [if_true, List.map_map]
  apply List.map_congr_left
  intro p _
  by_cases hp : p.1 = k
  · simp [hp]
  · simp [hp]

lemma keys_dictInsert_of_lookup (d : List (String × IfaceRec)) (k : String) (v w : IfaceRec)
    (h : List.lookup k d = some w) :
    (dictInsert d k v).map Prod.fst = d.map Prod.fst :=
  keys_dictInsert_of_mem d k v (lookup_some_any d k w h)

lemma nodup_keys_dictInsert (d : List (String × IfaceRec)) (k : String) (v : IfaceRec)
    (h : (d.map Prod.fst).Nodup) : ((dictInsert d k v).map Prod.fst).Nodup := by
  unfold dictInsert
  by_cases ha : d.any (fun p => p.1 == k)
  · rw [if_pos ha]
    have : (d.map (fun p => if p.1 == k then (k, v) else p)).map Prod.fst = d.map Prod.fst := by
      simp only [List.map_map]
      apply List.map_congr_left
      intro p _
      by_cases hp : p.1 = k
      · simp [hp]
      · simp [hp]
    rw [this]; exact h
  · have hb : d.any (fun p => p.1 == k) = false := Bool.eq_false_iff.mpr ha
    rw [if_neg (by simp [hb])]
    rw [List.map_append]
    rw [List.nodup_append]
    refine ⟨h, by simp, ?_⟩
    intro x hx hx'
    simp only [List.map_cons, List.map_nil, List.mem_singleton] at hx'
    obtain ⟨p, hp, hpk⟩ := List.mem_map.mp hx
    exact any_key_eq_false_forall d k hb p hp (hx' ▸ hpk)

/-! ## Registry Builder lemmas -/

/-- The kept `Interface` nodes named `k`, in stream order: the entries of
the dict comprehension that assign key `k`. -/
def keptNamed (keep : Definition → Bool) (k : String) : List Definition → List InterfaceNode
  | [] => []
  | .iface n :: rest =>
    if keep (.iface n) && (n.name == k) then n :: keptNamed keep k rest
    else keptNamed keep k rest
  | .impl _ :: rest => keptNamed keep k rest

lemma buildFold_lookup (keep : Definition → Bool) (relpath : String → String) (k : String) :
    ∀ (defs : List Definition) (acc : Registry),
      List.lookup k (defs.foldl (buildStep keep relpath) acc)
        = ((keptNamed keep k defs).getLast?.map (interface_node_to_dict relpath)).or
            (List.lookup k acc) := by
  intro defs
  induction defs with
  | nil =>
    intro acc
    rw [show keptNamed keep k [] = [] from rfl]
    exact (Option.none_or).symm
  | cons dfn rest ih =>
    intro acc
    rw [List.foldl_cons, ih]
    cases hrest : keptNamed keep k rest with
    | cons b l' =>
      cases hm : (b :: l').getLast? with
      | none => exact absurd (List.getLast?_eq_none_iff.mp hm) (by simp)
      | some m =>
        cases dfn with
        | impl mm =>
          have h1 : keptNamed keep k (.impl mm :: rest) = keptNamed keep k rest := rfl
          rw [h1, hrest, hm]
          rfl
        | iface n =>
          by_cases hk : (keep (.iface n) && (n.name == k)) = true
          · have h1 : keptNamed keep k (.iface n :: rest) = n :: keptNamed keep k rest := by
              rw [keptNamed, if_pos hk]
            rw [h1, hrest, List.getLast?_cons_cons, hm]
            rfl
          · have h1 : keptNamed keep k (.iface n :: rest) = keptNamed keep k rest := by
              rw [keptNamed, if_neg hk]
            rw [h1, hrest, hm]
            rfl
    | nil =>
      cases dfn with
      | impl mm =>
        have h1 : keptNamed keep k (.impl mm :: rest) = [] := hrest
        rw [h1]
        exact (Option.none_or).symm
      | iface n =>
        by_cases hkeep : keep (.iface n) = true
        · by_cases hname : n.name = k
          · have hk : (keep (.iface n) && (n.name == k)) = true := by
              rw [beq_iff_eq.mpr hname, Bool.and_true]; exact hkeep
            have h1 : keptNamed keep k (.iface n :: rest) = [n] := by
              rw [keptNamed, if_pos hk, hrest]
            rw [h1, List.getLast?_singleton]
            show List.lookup k (buildStep keep relpath acc (.iface n))
              = (some (interface_node_to_dict relpath n)).or (List.lookup k acc)
            rw [show buildStep keep relpath acc (.iface n)
                = dictInsert acc n.name (interface_node_to_dict relpath n) from by
                  rw [buildStep, if_pos hkeep]]
            rw [hname, lookup_dictInsert_self]
            rfl
          · have hk : (keep (.iface n) && (n.name == k)) = false := by
              rw [beq_eq_false_iff_ne.mpr hname, Bool.and_false]
            have h1 : keptNamed keep k (.iface n :: rest) = [] := by
              rw [keptNamed, if_neg (by rw [hk]; exact Bool.false_ne_true), hrest]
            rw [h1]
            show List.lookup k (buildStep keep relpath acc (.iface n))
              = Option.or none (List.lookup k acc)
            rw [show buildStep keep relpath acc (.iface n)
                = dictInsert acc n.name (interface_node_to_dict relpath n) from by
                  rw [buildStep, if_pos hkeep]]
            rw [lookup_dictInsert_ne _ _ _ _ (fun h => hname h.symm)]
            exact (Option.none_or).symm
        · have h1 : keptNamed keep k (.iface n :: rest) = [] := by
            rw [keptNamed,
              if_neg (by rw [Bool.eq_false_iff.mpr hkeep, Bool.false_and]; exact Bool.false_ne_true),
              hrest]
          rw [h1]
          show List.lookup k (buildStep keep relpath acc (.iface n))
            = Option.or none (List.lookup k acc)
          rw [show buildStep keep relpath acc (.iface n) = acc from by
            rw [buildStep, if_neg hkeep]]
          exact (Option.none_or).symm

/-- Lookup in a freshly built dict: the record of the LAST kept
definition carrying that name, if any. -/
lemma buildIfaceDict_lookup (keep : Definition → Bool) (relpath : String → String)
    (k : String) (defs : List Definition) :
    List.lookup k (buildIfaceDict keep relpath defs)
      = (keptNamed keep k defs).getLast?.map (interface_node_to_dict relpath) := by
  rw [buildIfaceDict, buildFold_lookup]
  rw [show List.lookup k ([] : Registry) = none from rfl, Option.or_none]

lemma nodup_keys_buildFold (keep : Definition → Bool) (relpath : String → String) :
    ∀ (defs : List Definition) (acc : Registry),
      (acc.map Prod.fst).Nodup → ((defs.foldl (buildStep keep relpath) acc).map Prod.fst).Nodup := by
  intro defs
  induction defs with
  | nil => intro acc h; exact h
  | cons dfn rest ih =>
    intro acc h
    rw [List.foldl_cons]
    apply ih
    cases dfn with
    | impl mm => exact h
    | iface n =>
      by_cases hkeep : keep (.iface n)
      · rw [show buildStep keep relpath acc (.iface n)
            = dictInsert acc n.name (interface_node_to_dict relpath n) from by
              simp [buildStep, hkeep]]
        exact nodup_keys_dictInsert _ _ _ h
      · rw [show buildStep keep relpath acc (.iface n) = acc from by simp [buildStep, hkeep]]
        exact h

/-- The keys of a freshly built dict are unique (it is a dict). -/
lemma nodup_keys_buildIfaceDict (keep : Definition → Bool) (relpath : String → String)
    (defs : List Definition) :
    ((buildIfaceDict keep relpath defs).map Prod.fst).Nodup :=
  nodup_keys_buildFold keep relpath defs [] (by simp)

/-! ## Partial Merger lemmas -/

lemma keys_partialStep (acc : Registry) (p : String × IfaceRec) :
    (partialStep acc p).map Prod.fst = acc.map Prod.fst := by
  rw [partialStep]
  cases h : List.lookup p.1 acc with
  | none => rfl
  | some base => exact keys_dictInsert_of_lookup acc p.1 _ base h

lemma keys_merge_partial_dicts (interfaces : Registry) (partials : Registry) :
    (merge_partial_dicts interfaces partials).map Prod.fst = interfaces.map Prod.fst := by
  rw [merge_partial_dicts]
  induction partials generalizing interfaces with
  | nil => rfl
  | cons q rest ih =>
    rw [List.foldl_cons]
    rw [ih (partialStep interfaces q), keys_partialStep]

lemma lookup_partialStep_ne (acc : Registry) (q : String × IfaceRec) (n : String)
    (h : q.1 ≠ n) : List.lookup n (partialStep acc q) = List.lookup n acc := by
  rw [partialStep]
  cases hq : List.lookup q.1 acc with
  | none => rfl
  | some base => exact lookup_dictInsert_ne acc q.1 _ n (fun he => h he.symm)

lemma lookup_merge_partial_of_absent (interfaces : Registry) (partials : Registry)
    (n : String) (h : ∀ q ∈ partials, q.1 ≠ n) :
    List.lookup n (merge_partial_dicts interfaces partials) = List.lookup n interfaces := by
  rw [merge_partial_dicts]
  induction partials generalizing interfaces with
  | nil => rfl
  | cons q rest ih =>
    rw [List.foldl_cons]
    rw [ih (partialStep interfaces q) (fun p hp => h p (List.mem_cons_of_mem q hp)),
      lookup_partialStep_ne interfaces q n (h q (List.mem_cons_self q rest))]

lemma lookup_merge_partial_none (interfaces : Registry) (partials : Registry)
    (n : String) (h : List.lookup n interfaces = none) :
    List.lookup n (merge_partial_dicts interfaces partials) = none := by
  rw [merge_partial_dicts]
  induction partials generalizing interfaces with
  | nil => exact h
  | cons q rest ih =>
    rw [List.foldl_cons]
    apply ih
    by_cases hq : q.1 = n
    · rw [partialStep, hq, h]
      exact h
    · rw [lookup_partialStep_ne interfaces q n hq]
      exact h

/-- The matched-fragment case of the partial merge: with unique fragment
keys, the base record named `n` ends up merged with exactly the fragment
named `n`, exactly once. -/
lemma lookup_merge_partial_of_match (partials : Registry) :
    ∀ (interfaces : Registry) (n : String) (base frag : IfaceRec),
      (partials.map Prod.fst).Nodup →
      List.lookup n interfaces = some base →
      List.lookup n partials = some frag →
      List.lookup n (merge_partial_dicts interfaces partials)
        = some (mergePartialInto base frag) := by
  induction partials with
  | nil => intro interfaces n base frag _ _ hfrag; cases hfrag
  | cons q rest ih =>
    intro interfaces n base frag hnodup hbase hfrag
    obtain ⟨a, f⟩ := q
    have hnodup' : (rest.map Prod.fst).Nodup := (List.nodup_cons.mp hnodup).2
    rw [merge_partial_dicts, List.foldl_cons]
    by_cases hq : a = n
    · have hfrag' : frag = f := by
        rw [lookup_cons_if, if_pos hq.symm] at hfrag
        exact (Option.some_inj.mp hfrag).symm
      have hstep : partialStep interfaces (a, f)
          = dictInsert interfaces a (mergePartialInto base f) := by
        rw [partialStep]
        have : List.lookup (a, f).1 interfaces = some base := by
          rw [show (a, f).1 = a from rfl, hq, hbase]
        rw [this]
      have habs : ∀ p ∈ rest, p.1 ≠ n := by
        intro p hp he
        have h1 : p.1 ∈ rest.map Prod.fst := List.mem_map.mpr ⟨p, hp, rfl⟩
        have h2 : n ∈ rest.map Prod.fst := he ▸ h1
        have h3 : a ∈ rest.map Prod.fst := hq.symm ▸ h2
        exact (List.nodup_cons.mp hnodup).1 h3
      show List.lookup n (List.foldl partialStep (partialStep interfaces (a, f)) rest)
        = some (mergePartialInto base frag)
      rw [show List.foldl partialStep (partialStep interfaces (a, f)) rest
          = merge_partial_dicts (partialStep interfaces (a, f)) rest from rfl]
      rw [lookup_merge_partial_of_absent _ rest n habs, hstep,
        show a = n from hq, lookup_dictInsert_self, hfrag']
    · have hfrag' : List.lookup n rest = some frag := by
        rw [lookup_cons_if, if_neg (fun he => hq he.symm)] at hfrag
        exact hfrag
      have hbase' : List.lookup n (partialStep interfaces (a, f)) = some base := by
        rw [lookup_partialStep_ne interfaces (a, f) n hq]
        exact hbase
      exact ih (partialStep interfaces (a, f)) n base frag hnodup' hbase' hfrag'

/-! ## Mixin Merger lemmas -/

/-- The names the implements pass writes to: targets of relations that
carry a reference. -/
def implementTargets : List ImplementNode → List String
  | [] => []
  | node :: rest =>
    match node.reference with
    | some _ => node.name :: implementTargets rest
    | none => implementTargets rest

lemma implementTargets_cons_none (node : ImplementNode) (rest : List ImplementNode)
    (h : node.reference = none) :
    implementTargets (node :: rest) = implementTargets rest := by
  rw [implementTargets, h]

lemma implementTargets_cons_some (node : ImplementNode) (rest : List ImplementNode)
    (r : String) (h : node.reference = some r) :
    implementTargets (node :: rest) = node.name :: implementTargets rest := by
  rw [implementTargets, h]

lemma merge_implement_nil (d : Registry) : merge_implement_node d [] = some d := rfl

lemma merge_implement_cons (d : Registry) (node : ImplementNode) (rest : List ImplementNode) :
    merge_implement_node d (node :: rest)
      = (implementStep d node).bind (fun d₁ => merge_implement_node d₁ rest) := by
  rw [merge_implement_node, List.foldlM_cons]
  rfl

lemma keys_implementStep (d d₁ : Registry) (node : ImplementNode)
    (h : implementStep d node = some d₁) : d₁.map Prod.fst = d.map Prod.fst := by
  cases href : node.reference with
  | none =>
    simp only [implementStep, href] at h
    injection h with h
    rw [← h]
  | some r =>
    cases ht : List.lookup node.name d with
    | none =>
      simp only [implementStep, href, ht] at h
      exact Option.noConfusion h
    | some t =>
      cases hr : List.lookup r d with
      | none =>
        simp only [implementStep, href, ht, hr] at h
        exact Option.noConfusion h
      | some rr =>
        simp only [implementStep, href, ht, hr] at h
        injection h with h
        rw [← h]
        exact keys_dictInsert_of_lookup d node.name _ t ht

lemma implementStep_frame (d d₁ : Registry) (node : ImplementNode)
    (h : implementStep d node = some d₁) :
    ∀ n rec, List.lookup n d = some rec →
      ∃ rec', List.lookup n d₁ = some rec'
        ∧ rec'.Name = rec.Name ∧ rec'.FilePath = rec.FilePath
        ∧ rec'.Inherit = rec.Inherit ∧ rec'.ExtAttributes = rec.ExtAttributes
        ∧ rec'.Partial_FilePaths = rec.Partial_FilePaths
        ∧ ((node.reference = none ∨ n ≠ node.name) → rec' = rec) := by
  intro n rec hrec
  cases href : node.reference with
  | none =>
    simp only [implementStep, href] at h
    injection h with h
    subst h
    exact ⟨rec, hrec, rfl, rfl, rfl, rfl, rfl, fun _ => rfl⟩
  | some r =>
    cases ht : List.lookup node.name d with
    | none =>
      simp only [implementStep, href, ht] at h
      exact Option.noConfusion h
    | some t =>
      cases hr : List.lookup r d with
      | none =>
        simp only [implementStep, href, ht, hr] at h
        exact Option.noConfusion h
      | some rr =>
        simp only [implementStep, href, ht, hr] at h
        injection h with h
        subst h
        by_cases hn : n = node.name
        · have ht' : t = rec := by
            rw [hn] at hrec
            rw [hrec] at ht
            exact (Option.some_inj.mp ht).symm
          refine ⟨mergeImplementInto t rr, ?_, ?_, ?_, ?_, ?_, ?_, ?_⟩
          · rw [hn, lookup_dictInsert_self]
          · rw [show (mergeImplementInto t rr).Name = t.Name from rfl, ht']
          · rw [show (mergeImplementInto t rr).FilePath = t.FilePath from rfl, ht']
          · rw [show (mergeImplementInto t rr).Inherit = t.Inherit from rfl, ht']
          · rw [show (mergeImplementInto t rr).ExtAttributes = t.ExtAttributes from rfl, ht']
          · rw [show (mergeImplementInto t rr).Partial_FilePaths
              = t.Partial_FilePaths from rfl, ht']
          · intro hcase
            cases hcase with
            | inl habs => exact Option.noConfusion habs
            | inr hne => exact absurd hn hne
        · refine ⟨rec, ?_, rfl, rfl, rfl, rfl, rfl, fun _ => rfl⟩
          rw [lookup_dictInsert_ne d node.name _ n hn]
          exact hrec

/-- The implements merge, when it succeeds, only ever rewrites the
member lists of target records: keys, every non-member field, and every
non-targeted record are untouched. -/
lemma merge_implement_frame :
    ∀ (nodes : List ImplementNode) (d d' : Registry),
      merge_implement_node d nodes = some d' →
      (d'.map Prod.fst = d.map Prod.fst)
      ∧ ∀ n rec, List.lookup n d = some rec →
          ∃ rec', List.lookup n d' = some rec'
            ∧ rec'.Name = rec.Name ∧ rec'.FilePath = rec.FilePath
            ∧ rec'.Inherit = rec.Inherit ∧ rec'.ExtAttributes = rec.ExtAttributes
            ∧ rec'.Partial_FilePaths = rec.Partial_FilePaths
            ∧ (n ∉ implementTargets nodes → rec' = rec) := by
  intro nodes
  induction nodes with
  | nil =>
    intro d d' h
    rw [merge_implement_nil] at h
    injection h with h
    subst h
    exact ⟨rfl, fun n rec hrec => ⟨rec, hrec, rfl, rfl, rfl, rfl, rfl, fun _ => rfl⟩⟩
  | cons node rest ih =>
    intro d d' h
    rw [merge_implement_cons] at h
    obtain ⟨d₁, h₁, h₂⟩ := Option.bind_eq_some.mp h
    obtain ⟨hkeys₂, hframe₂⟩ := ih d₁ d' h₂
    constructor
    · rw [hkeys₂, keys_implementStep d d₁ node h₁]
    · intro n rec hrec
      obtain ⟨rec₁, hrec₁, e1, e2, e3, e4, e5, hunch₁⟩ :=
        implementStep_frame d d₁ node h₁ n rec hrec
      obtain ⟨rec', hrec', f1, f2, f3, f4, f5, hunch₂⟩ := hframe₂ n rec₁ hrec₁
      refine ⟨rec', hrec', f1.trans e1, f2.trans e2, f3.trans e3, f4.trans e4,
        f5.trans e5, ?_⟩
      intro hnot
      cases href : node.reference with
      | none =>
        rw [implementTargets_cons_none node rest href] at hnot
        rw [hunch₂ hnot, hunch₁ (Or.inl href)]
      | some r =>
        rw [implementTargets_cons_some node rest r href] at hnot
        have hnr : n ∉ implementTargets rest := fun hm => hnot (List.mem_cons_of_mem _ hm)
        have hne : n ≠ node.name := fun he => hnot (he ▸ List.mem_cons_self _ _)
        rw [hunch₂ hnr, hunch₁ (Or.inr hne)]

lemma merge_implement_skip (d : Registry) (node : ImplementNode) (rest : List ImplementNode)
    (h : node.reference = none) :
    merge_implement_node d (node :: rest) = merge_implement_node d rest := by
  rw [merge_implement_cons]
  rw [show implementStep d node = some d from by simp only [implementStep, h]]
  rfl

lemma merge_implement_fatal (d : Registry) (node : ImplementNode) (rest : List ImplementNode)
    (r : String) (h : node.reference = some r)
    (hmiss : List.lookup node.name d = none ∨ List.lookup r d = none) :
    merge_implement_node d (node :: rest) = none := by
  rw [merge_implement_cons]
  have hstep : implementStep d node = none := by
    cases hmiss with
    | inl h1 =>
      cases h2 : List.lookup r d with
      | none => simp only [implementStep, h, h1, h2]
      | some rr => simp only [implementStep, h, h1, h2]
    | inr h2 =>
      cases h1 : List.lookup node.name d with
      | none => simp only [implementStep, h, h1]
      | some t => simp only [implementStep, h, h1, h2]
  rw [hstep]
  rfl

/-! ## Serializer lemmas -/

lemma sortByKey_sorted (d : Registry) : List.Sorted keyLe (sortByKey d) :=
  List.sorted_insertionSort keyLe d

lemma sortByKey_perm (d : Registry) : (sortByKey d).Perm d :=
  List.perm_insertionSort keyLe d

/-- The strict-by-key order used to show two sorted registries with the
same entries are the same list. -/
def keyLtNe (p q : String × IfaceRec) : Prop := keyLe p q ∧ p.1 ≠ q.1

instance : IsAntisymm (String × IfaceRec) keyLtNe :=
  ⟨fun _ _ hab hba => absurd (String.ext (le_antisymm hab.1 hba.1)) hab.2⟩

lemma pairwise_keyLtNe_of_sorted_nodup (l : Registry)
    (hs : List.Sorted keyLe l) (hn : (l.map Prod.fst).Nodup) :
    List.Pairwise keyLtNe l := by
  have hne : List.Pairwise (fun p q : String × IfaceRec => p.1 ≠ q.1) l :=
    List.pairwise_map.mp hn
  exact (List.Pairwise.and hs hne)

lemma sortByKey_eq_of_perm (d₁ d₂ : Registry) (hp : d₁.Perm d₂)
    (hn : (d₁.map Prod.fst).Nodup) : sortByKey d₁ = sortByKey d₂ := by
  have hn₂ : (d₂.map Prod.fst).Nodup := ((hp.map Prod.fst).nodup_iff).mp hn
  have hns₁ : ((sortByKey d₁).map Prod.fst).Nodup :=
    (((sortByKey_perm d₁).map Prod.fst).nodup_iff).mpr hn
  have hns₂ : ((sortByKey d₂).map Prod.fst).Nodup :=
    (((sortByKey_perm d₂).map Prod.fst).nodup_iff).mpr hn₂
  have hp' : (sortByKey d₁).Perm (sortByKey d₂) :=
    (sortByKey_perm d₁).trans (hp.trans (sortByKey_perm d₂).symm)
  exact List.eq_of_perm_of_sorted hp'
    (pairwise_keyLtNe_of_sorted_nodup _ (sortByKey_sorted d₁) hns₁)
    (pairwise_keyLtNe_of_sorted_nodup _ (sortByKey_sorted d₂) hns₂)

lemma export_eq_of_perm (d₁ d₂ : Registry) (hp : d₁.Perm d₂)
    (hn : (d₁.map Prod.fst).Nodup) :
    export_to_jsonfile d₁ = export_to_jsonfile d₂ := by
  rw [export_to_jsonfile, export_to_jsonfile, sortByKey_eq_of_perm d₁ d₂ hp hn]

/-! ## Concrete fixtures used by witnesses and counterexamples -/

/-- An empty-membered record fixture. -/
def emptyRec (nm fp : String) : IfaceRec :=
  { Name := nm, FilePath := fp, Consts := [], Attributes := [], Operations := []
    ExtAttributes := [], Inherit := [], Partial_FilePaths := none }

/-- A record fixture holding one constant named `k`. -/
def oneConstRec (nm k : String) : IfaceRec :=
  { emptyRec nm (nm ++ ".idl") with Consts := [⟨k, "long", "1", []⟩] }

/-- C7 fixture: an operation node with every accessor flag set and a
declared name. -/
def C7op : OperationNode :=
  { name := "declared", getter := true, setter := true, deleter := true
    args := [], typeName := "long", extAttrs := [], static := false }

/-- C5/C2 fixture registry. -/
def C5reg : Registry := [("A", emptyRec "A" "a.idl")]

/-- C5 fixture orphan fragment record. -/
def C5frag : IfaceRec := oneConstRec "Orphan" "KO"

/-! ## Claim theorems -/

/-- C4: for every interface node, the record's `FilePath` is the node's
absolute defining-document path made relative to the working directory
and then stripped, on both ends, of the characters of the fixed
project-root prefix string `_STRIP_FILEPATH` — a literal character-set
trim (`str.strip`), not a path-segment or substring trim, as the two
evaluation conjuncts demonstrate (characters are eaten even where the
path does not start with the prefix). -/
theorem C4_filepath_char_trim :
    (∀ (relpath : String → String) (n : InterfaceNode),
        (interface_node_to_dict relpath n).FilePath
          = pyStrip _STRIP_FILEPATH (relpath n.filename))
  ∧ pyStrip _STRIP_FILEPATH
      "../chromium/src/third_party/WebKit/Source/core/frame/Window.idl"
      = "Source/core/frame/Window.idl"
  ∧ pyStrip _STRIP_FILEPATH "core/dom/Attr.idl" = "Attr.idl" := by
  refine ⟨fun relpath n => rfl, ?_, ?_⟩ <;> decide

/-- C7: the extracted operation name is `__getter__` when the node's
GETTER property is set (regardless of the declared name), else
`__setter__` when SETTER is set, else `__deleter__` when DELETER is set,
else the declared name; GETTER takes priority when several flags are
set. -/
theorem C7_operation_sentinel_name :
    ∀ op : OperationNode,
      ((operation_node_to_dict op).Name = get_operation_name op)
      ∧ (op.getter = true → (operation_node_to_dict op).Name = "__getter__")
      ∧ (op.getter = false → op.setter = true →
          (operation_node_to_dict op).Name = "__setter__")
      ∧ (op.getter = false → op.setter = false → op.deleter = true →
          (operation_node_to_dict op).Name = "__deleter__")
      ∧ (op.getter = false → op.setter = false → op.deleter = false →
          (operation_node_to_dict op).Name = op.name) := by
  intro op
  refine ⟨rfl, ?_, ?_, ?_, ?_⟩
  · intro hg
    simp [operation_node_to_dict, get_operation_name, hg]
  · intro hg hs
    simp [operation_node_to_dict, get_operation_name, hg, hs]
  · intro hg hs hd
    simp [operation_node_to_dict, get_operation_name, hg, hs, hd]
  · intro hg hs hd
    simp [operation_node_to_dict, get_operation_name, hg, hs, hd]

/-- C7 witness: a node with all three flags and a declared name still
yields `__getter__`. -/
theorem C7_witness : (operation_node_to_dict C7op).Name = "__getter__" :=
  (C7_operation_sentinel_name C7op).2.1 rfl

/-- The orphan-fragment skip of `merge_partial_dicts`: a fragment whose
name has no base record leaves the fold exactly where it was. -/
lemma merge_partial_orphan_skip (interfaces : Registry) (k : String) (f : IfaceRec)
    (rest : List (String × IfaceRec)) (h : List.lookup k interfaces = none) :
    merge_partial_dicts interfaces ((k, f) :: rest) = merge_partial_dicts interfaces rest := by
  rw [merge_partial_dicts, List.foldl_cons,
    show partialStep interfaces (k, f) = interfaces from by
      rw [partialStep, show List.lookup (k, f).1 interfaces = none from h]]
  rfl

/-- C5: a partial fragment with no matching non-partial base is dropped
without error: processing it is a no-op on the registry, it never
surfaces as a key of the result, and the partial merge never adds or
removes keys. -/
theorem C5_orphan_partial_dropped :
    (∀ (interfaces : Registry) (k : String) (f : IfaceRec)
        (rest : List (String × IfaceRec)),
        List.lookup k interfaces = none →
        merge_partial_dicts interfaces ((k, f) :: rest)
          = merge_partial_dicts interfaces rest)
  ∧ (∀ (interfaces partials : Registry) (k : String),
        List.lookup k interfaces = none →
        List.lookup k (merge_partial_dicts interfaces partials) = none)
  ∧ (∀ (interfaces partials : Registry),
        (merge_partial_dicts interfaces partials).map Prod.fst
          = interfaces.map Prod.fst) :=
  ⟨merge_partial_orphan_skip,
   fun i p k h => lookup_merge_partial_none i p k h,
   fun i p => keys_merge_partial_dicts i p⟩

/-- C5 witness: the orphan fragment `("Orphan", C5frag)` is a no-op on
the concrete registry `C5reg`. -/
theorem C5_witness :
    merge_partial_dicts C5reg [("Orphan", C5frag)] = merge_partial_dicts C5reg [] :=
  C5_orphan_partial_dropped.1 C5reg "Orphan" C5frag [] (by decide)

/-- C2: the mixin merge skips a relation whose reference property is
absent (the registry passes through unchanged), and raises an uncaught
lookup failure (`none`) as soon as a relation's target name or reference
name is not a key of the registry; the partial merger, by contrast,
drops an unmatched fragment silently (third conjunct). -/
theorem C2_mixin_error_policy :
    (∀ (d : Registry) (node : ImplementNode) (rest : List ImplementNode),
        node.reference = none →
        merge_implement_node d (node :: rest) = merge_implement_node d rest)
  ∧ (∀ (d : Registry) (node : ImplementNode) (rest : List ImplementNode) (r : String),
        node.reference = some r →
        (List.lookup node.name d = none ∨ List.lookup r d = none) →
        merge_implement_node d (node :: rest) = none)
  ∧ (∀ (interfaces : Registry) (k : String) (f : IfaceRec)
        (rest : List (String × IfaceRec)),
        List.lookup k interfaces = none →
        merge_partial_dicts interfaces ((k, f) :: rest)
          = merge_partial_dicts interfaces rest) :=
  ⟨merge_implement_skip, merge_implement_fatal, merge_partial_orphan_skip⟩

/-- C2 witness: on the concrete registry `C5reg`, a reference-less
relation is skipped and a relation referencing a missing name is
fatal. -/
theorem C2_witness :
    merge_implement_node C5reg [⟨"A", none⟩] = merge_implement_node C5reg []
    ∧ merge_implement_node C5reg [⟨"A", some "Nope"⟩] = none :=
  ⟨C2_mixin_error_policy.1 C5reg ⟨"A", none⟩ [] rfl,
   C2_mixin_error_policy.2.1 C5reg ⟨"A", some "Nope"⟩ [] "Nope" rfl (Or.inr (by decide))⟩

/-- C9 fixture: base record. -/
def C9base : IfaceRec := oneConstRec "A" "KA"

/-- C9 fixture: fragment record with its own file path. -/
def C9frag : IfaceRec := { oneConstRec "A" "KF" with FilePath := "a-extra.idl" }

/-- C9 fixture registries. -/
def C9i : Registry := [("A", C9base)]

/-- C9 fixture partials dict. -/
def C9p : Registry := [("A", C9frag)]

/-- C9: for a matched fragment, the partial merge produces exactly the
base record with its `Consts`, `Attributes` and `Operations` extended by
the fragment's and the fragment's `FilePath` appended to
`Partial_FilePaths` (created when absent); every other field — in
particular `ExtAttributes` and `Inherit` — is the base's, so nothing
else is propagated from the fragment. -/
theorem C9_partial_merge_scope :
    ∀ (interfaces partials : Registry) (n : String) (base frag : IfaceRec),
      (partials.map Prod.fst).Nodup →
      List.lookup n interfaces = some base →
      List.lookup n partials = some frag →
      List.lookup n (merge_partial_dicts interfaces partials)
        = some { base with
            Consts := base.Consts ++ frag.Consts
            Attributes := base.Attributes ++ frag.Attributes
            Operations := base.Operations ++ frag.Operations
            Partial_FilePaths := some (base.Partial_FilePaths.getD []
              ++ [frag.FilePath]) } := by
  intro i p n base frag hn hb hf
  rw [lookup_merge_partial_of_match p i n base frag hn hb hf]
  rfl

/-- C9 witness: the concrete merge of `C9p` into `C9i`. -/
theorem C9_witness :
    List.lookup "A" (merge_partial_dicts C9i C9p)
      = some { C9base with
          Consts := C9base.Consts ++ C9frag.Consts
          Attributes := C9base.Attributes ++ C9frag.Attributes
          Operations := C9base.Operations ++ C9frag.Operations
          Partial_FilePaths := some (C9base.Partial_FilePaths.getD []
            ++ [C9frag.FilePath]) } :=
  C9_partial_merge_scope C9i C9p "A" C9base C9frag (by decide) (by decide) (by decide)

/-- C10: for every name, the non-partial registry built by `main`'s dict
comprehension holds the record extracted from the LAST non-partial
`Interface` definition of the stream carrying that name (earlier
same-named definitions are overwritten), and its keys are unique, so
there is exactly one record per name. -/
theorem C10_last_nonpartial_wins :
    ∀ (relpath : String → String) (defs : List Definition) (k : String),
      List.lookup k (interfaces_dict_of relpath defs)
        = (keptNamed isNonPartialInterface k defs).getLast?.map
            (interface_node_to_dict relpath)
      ∧ ((interfaces_dict_of relpath defs).map Prod.fst).Nodup := by
  intro relpath defs k
  exact ⟨buildIfaceDict_lookup isNonPartialInterface relpath k defs,
    nodup_keys_buildIfaceDict isNonPartialInterface relpath defs⟩

/-- C6 fixture records and registry. -/
def C6a : IfaceRec := oneConstRec "A" "KA"

/-- C6 fixture: the referenced record. -/
def C6b : IfaceRec := oneConstRec "B" "KB"

/-- C6 fixture registry. -/
def C6d : Registry := [("A", C6a), ("B", C6b)]

/-- C6 fixture implements batch. -/
def C6nodes : List ImplementNode := [⟨"A", some "B"⟩]

/-- C6 fixture: the registry after the implements merge. -/
def C6dres : Registry := [("A", mergeImplementInto C6a C6b), ("B", C6b)]

/-- C6: a successful mixin merge preserves the key list, and for every
record of the registry it preserves `Name`, `FilePath`, `Inherit` (and
`ExtAttributes`, `Partial_FilePaths`); a record whose name is not the
target of any reference-carrying relation is completely unchanged, so
only the member lists of targets are ever modified. -/
theorem C6_mixin_frame :
    ∀ (d : Registry) (nodes : List ImplementNode) (d' : Registry),
      merge_implement_node d nodes = some d' →
      (d'.map Prod.fst = d.map Prod.fst)
      ∧ ∀ n rec, List.lookup n d = some rec →
          ∃ rec', List.lookup n d' = some rec'
            ∧ rec'.Name = rec.Name ∧ rec'.FilePath = rec.FilePath
            ∧ rec'.Inherit = rec.Inherit ∧ rec'.ExtAttributes = rec.ExtAttributes
            ∧ rec'.Partial_FilePaths = rec.Partial_FilePaths
            ∧ (n ∉ implementTargets nodes → rec' = rec) := by
  intro d nodes d' h
  exact merge_implement_frame nodes d d' h

/-- C6 witness: the frame property at the concrete registry `C6d` and
batch `C6nodes`, whose merge result is `C6dres`. -/
theorem C6_witness :
    (C6dres.map Prod.fst = C6d.map Prod.fst)
    ∧ ∀ n rec, List.lookup n C6d = some rec →
        ∃ rec', List.lookup n C6dres = some rec'
          ∧ rec'.Name = rec.Name ∧ rec'.FilePath = rec.FilePath
          ∧ rec'.Inherit = rec.Inherit ∧ rec'.ExtAttributes = rec.ExtAttributes
          ∧ rec'.Partial_FilePaths = rec.Partial_FilePaths
          ∧ (n ∉ implementTargets C6nodes → rec' = rec) :=
  C6_mixin_frame C6d C6nodes C6dres (by decide)

/-- C8 fixture record. -/
def C8r : IfaceRec := oneConstRec "R" "K"

/-- C8 fixture: one insertion order of the registry. -/
def C8d1 : Registry := [("B", C8r), ("A", C8r)]

/-- C8 fixture: the other insertion order of the same registry. -/
def C8d2 : Registry := [("A", C8r), ("B", C8r)]

/-- C8: serialization is deterministic and canonically ordered: the
output depends only on the registry's key-value content, not the dict's
insertion order (first conjunct — in particular, serializing the same
registry value twice is byte-identical, since the function is pure); the
top-level keys are emitted in sorted (code-point lexicographic,
case-sensitive) order, as are the fixed field keys of every nested
record dict at every level; the indentation of nesting level `l` is
exactly `4 * l` spaces. -/
theorem C8_serialization_deterministic :
    (∀ d₁ d₂ : Registry, d₁.Perm d₂ → (d₁.map Prod.fst).Nodup →
        export_to_jsonfile d₁ = export_to_jsonfile d₂)
  ∧ (∀ d : Registry, List.Sorted strLe ((sortByKey d).map Prod.fst))
  ∧ (∀ (level : Nat) (r : IfaceRec),
        List.Sorted strLe ((ifaceFields level r).map Prod.fst))
  ∧ (∀ (level : Nat) (c : ConstRec),
        List.Sorted strLe ((constFields level c).map Prod.fst))
  ∧ (∀ (level : Nat) (a : AttrRec),
        List.Sorted strLe ((attrFields level a).map Prod.fst))
  ∧ (∀ (level : Nat) (o : OpRec),
        List.Sorted strLe ((opFields level o).map Prod.fst))
  ∧ (∀ a : ArgRec, List.Sorted strLe ((argFields a).map Prod.fst))
  ∧ (∀ e : ExtAttrRec, List.Sorted strLe ((extAttrFields e).map Prod.fst))
  ∧ (∀ i : InheritRec, List.Sorted strLe ((inheritFields i).map Prod.fst))
  ∧ (∀ level : Nat, (indentStr level).length = 4 * level) := by
  refine ⟨export_eq_of_perm, ?_, ?_, ?_, ?_, ?_, ?_, ?_, ?_, ?_⟩
  · intro d
    exact List.pairwise_map.mpr (sortByKey_sorted d)
  · intro level r
    cases hp : r.Partial_FilePaths with
    | none => simp only [ifaceFields, hp, List.map]; decide
    | some ps => simp only [ifaceFields, hp, List.map]; decide
  · intro level c
    simp only [constFields, List.map]
    decide
  · intro level a
    simp only [attrFields, List.map]
    decide
  · intro level o
    simp only [opFields, List.map]
    decide
  · intro a
    simp only [argFields, List.map]
    decide
  · intro e
    simp only [extAttrFields, List.map]
    decide
  · intro i
    simp only [inheritFields, List.map]
    decide
  · intro level
    show (List.replicate (4 * level) ' ').length = 4 * level
    exact List.length_replicate _ _

/-- C8 witness: the two insertion orders of the same two-entry registry
serialize to byte-identical text. -/
theorem C8_witness : export_to_jsonfile C8d1 = export_to_jsonfile C8d2 :=
  C8_serialization_deterministic.1 C8d1 C8d2
    (List.Perm.swap ("A", C8r) ("B", C8r) []) (by decide)

/-- C1 fixture: the non-partial base definition of interface `A`. -/
def C1base : InterfaceNode :=
  { name := "A", filename := "base.idl", partialFlag := false
    consts := [⟨"K0", "long", "0", []⟩], attributes := [], operations := []
    extAttrs := [], inherits := [] }

/-- C1 fixture: the first partial fragment of `A`. -/
def C1f1 : InterfaceNode :=
  { C1base with
    filename := "f1.idl"
    partialFlag := true
    consts := [⟨"K1", "long", "1", []⟩] }

/-- C1 fixture: the second (last) partial fragment of `A`. -/
def C1f2 : InterfaceNode :=
  { C1base with
    filename := "f2.idl"
    partialFlag := true
    consts := [⟨"K2", "long", "2", []⟩] }

/-- C1 fixture definition stream: one base, two same-named fragments. -/
def C1defs : List Definition := [.iface C1base, .iface C1f1, .iface C1f2]

/-- C1 fixture: the registry after the partial merge of `main`'s dicts. -/
def C1merged : Registry :=
  merge_partial_dicts (interfaces_dict_of id C1defs) (partials_dict_of id C1defs)

/-- C1 counterexample: with two partial fragments `F1, F2` of `A` in the
stream, the merged `Consts` are NOT base ++ F1 ++ F2 (the claim's
prediction) — they are base ++ F2 only, because the partials dict is
keyed by name and keeps just the last same-named fragment. -/
theorem C1_counterexample :
    ((List.lookup "A" C1merged).map IfaceRec.Consts
        ≠ some ((interface_node_to_dict id C1base).Consts
            ++ ((interface_node_to_dict id C1f1).Consts
              ++ (interface_node_to_dict id C1f2).Consts)))
  ∧ ((List.lookup "A" C1merged).map IfaceRec.Consts
        = some ((interface_node_to_dict id C1base).Consts
            ++ (interface_node_to_dict id C1f2).Consts)) := by
  decide

/-- C1 (amended): for a non-partial interface `I` whose name carries
partial fragments in the stream, the merged record is `I`'s own members
followed by the members of the LAST same-named fragment only (with that
fragment's file path appended to `Partial_FilePaths`); earlier
same-named fragments are silently discarded by the name-keyed partials
dict. -/
theorem C1_amended :
    ∀ (relpath : String → String) (defs : List Definition) (n : String)
      (base : IfaceRec) (frag : InterfaceNode),
      List.lookup n (interfaces_dict_of relpath defs) = some base →
      (keptNamed isPartialInterface n defs).getLast? = some frag →
      List.lookup n (merge_partial_dicts (interfaces_dict_of relpath defs)
          (partials_dict_of relpath defs))
        = some { base with
            Consts := base.Consts ++ (interface_node_to_dict relpath frag).Consts
            Attributes := base.Attributes
              ++ (interface_node_to_dict relpath frag).Attributes
            Operations := base.Operations
              ++ (interface_node_to_dict relpath frag).Operations
            Partial_FilePaths := some (base.Partial_FilePaths.getD []
              ++ [(interface_node_to_dict relpath frag).FilePath]) } := by
  intro relpath defs n base frag hbase hfrag
  have hlook : List.lookup n (partials_dict_of relpath defs)
      = some (interface_node_to_dict relpath frag) := by
    rw [partials_dict_of, buildIfaceDict_lookup, hfrag]
    rfl
  rw [lookup_merge_partial_of_match (partials_dict_of relpath defs)
    (interfaces_dict_of relpath defs) n base (interface_node_to_dict relpath frag)
    (nodup_keys_buildIfaceDict isPartialInterface relpath defs) hbase hlook]
  rfl

/-- C1 witness: on the concrete stream `C1defs`, the merged `A` record
is the base extended by the last fragment `C1f2`. -/
theorem C1_witness :
    List.lookup "A" (merge_partial_dicts (interfaces_dict_of id C1defs)
        (partials_dict_of id C1defs))
      = some { (interface_node_to_dict id C1base) with
          Consts := (interface_node_to_dict id C1base).Consts
            ++ (interface_node_to_dict id C1f2).Consts
          Attributes := (interface_node_to_dict id C1base).Attributes
            ++ (interface_node_to_dict id C1f2).Attributes
          Operations := (interface_node_to_dict id C1base).Operations
            ++ (interface_node_to_dict id C1f2).Operations
          Partial_FilePaths := some ((interface_node_to_dict id C1base).Partial_FilePaths.getD []
            ++ [(interface_node_to_dict id C1f2).FilePath]) } :=
  C1_amended id C1defs "A" (interface_node_to_dict id C1base) C1f2
    (by decide) (by decide)

/-- C3 fixture registry: `A`, `B`, `C`, each with one distinct
constant. -/
def C3d : Registry :=
  [("A", oneConstRec "A" "ka"), ("B", oneConstRec "B" "kb"), ("C", oneConstRec "C" "kc")]

/-- C3 fixture batch: `B implements C` is processed before
`A implements B`. -/
def C3nodes : List ImplementNode := [⟨"B", some "C"⟩, ⟨"A", some "B"⟩]

/-- C3 counterexample: with the batch `[B implements C, A implements B]`
the final `A` holds `C`'s constant as well — `A`'s members are NOT
`A_pre ++ B_pre` (the claim's no-chaining prediction) but
`A_pre ++ B_merged`, because the relations mutate the registry
sequentially. -/
theorem C3_counterexample :
    (((merge_implement_node C3d C3nodes).bind (fun d => List.lookup "A" d)).map
        IfaceRec.Consts
      ≠ some ((oneConstRec "A" "ka").Consts ++ (oneConstRec "B" "kb").Consts))
  ∧ (((merge_implement_node C3d C3nodes).bind (fun d => List.lookup "A" d)).map
        IfaceRec.Consts
      = some ((oneConstRec "A" "ka").Consts
          ++ ((oneConstRec "B" "kb").Consts ++ (oneConstRec "C" "kc").Consts))) := by
  decide

/-- C3 (amended): relations are applied sequentially in list order; a
relation `{target
A, reference B}` extends `A`'s member lists with `B`'s
members AS OF THE CURRENT registry state — so if `B` was itself merged
earlier in the same batch, `A` receives `B`'s already-merged members
(chaining), and `B`'s pre-merge members only when `A`'s relation comes
first. -/
theorem C3_amended :
    ∀ (d : Registry) (A B : String) (tA tB : IfaceRec) (rest : List ImplementNode),
      List.lookup A d = some tA →
      List.lookup B d = some tB →
      merge_implement_node d (⟨A, some B⟩ :: rest)
        = merge_implement_node
            (dictInsert d A { tA with
              Consts := tA.Consts ++ tB.Consts
              Attributes := tA.Attributes ++ tB.Attributes
              Operations := tA.Operations ++ tB.Operations }) rest
      ∧ List.lookup A (dictInsert d A { tA with
            Consts := tA.Consts ++ tB.Consts
            Attributes := tA.Attributes ++ tB.Attributes
            Operations := tA.Operations ++ tB.Operations })
          = some { tA with
              Consts := tA.Consts ++ tB.Consts
              Attributes := tA.Attributes ++ tB.Attributes
              Operations := tA.Operations ++ tB.Operations } := by
  intro d A B tA tB rest hA hB
  have hstep : implementStep d ⟨A, some B⟩
      = some (dictInsert d A (mergeImplementInto tA tB)) := by
    show (match List.lookup A d, List.lookup B d with
          | some t, some rr => some (dictInsert d A (mergeImplementInto t rr))
          | _, _ => none)
        = some (dictInsert d A (mergeImplementInto tA tB))
    rw [hA, hB]
  constructor
  · rw [merge_implement_cons, hstep]
    rfl
  · exact lookup_dictInsert_self d A _

/-- C3 witness: the amended statement at the concrete registry `C3d`
with relation `A implements B` processed alone. -/
theorem C3_witness :
    List.lookup "A" (dictInsert C3d "A" { (oneConstRec "A" "ka") with
        Consts := (oneConstRec "A" "ka").Consts ++ (oneConstRec "B" "kb").Consts
        Attributes := (oneConstRec "A" "ka").Attributes
          ++ (oneConstRec "B" "kb").Attributes
        Operations := (oneConstRec "A" "ka").Operations
          ++ (oneConstRec "B" "kb").Operations })
      = some { (oneConstRec "A" "ka") with
          Consts := (oneConstRec "A" "ka").Consts ++ (oneConstRec "B" "kb").Consts
          Attributes := (oneConstRec "A" "ka").Attributes
            ++ (oneConstRec "B" "kb").Attributes
          Operations := (oneConstRec "A" "ka").Operations
            ++ (oneConstRec "B" "kb").Operations } :=
  (C3_amended C3d "A" "B" (oneConstRec "A" "ka") (oneConstRec "B" "kb") []
    (by decide) (by decide)).2

end BlinkIdl
